import Mathlib

/-!
Verification development for the PyQtChat repository.

This file gives a shallow embedding, in Lean, of the streaming chat session
core of the repository:

* src/core/chat_worker.py   (class ChatWorker: the streaming session)
* src/ui/chat_tab.py        (class ChatTab: one chat session controller)
* src/ui/main_window.py     (class ChatbotApp: the workspace controller)

and proves or refutes the frozen specification claims about them.

Modelling conventions:

* Python dict messages with keys role/content/model become the `Msg`
  structure.
* Qt layout items become the `Widget` inductive; a hidden widget is still in
  the layout (Qt itemAt counts hidden widgets), so visibility is not
  modelled.  The ai_message_widget reference held by the tab is modelled as
  the index at which that widget sits in the layout (no reordering happens
  while a reference is held, so the index is stable).
* The three pyqtSignal events of ChatWorker (message_received,
  error_occurred, finished) become the `WEvent` inductive.  The worker has
  no further event kinds: in particular there is no separate cancellation
  signal in the source.
* Cooperative cancellation (the _should_stop flag read at the top of the
  stream loop) is modelled by an optional iteration index from which the
  flag is observed.
* Python str.strip() is embedded as `pyStrip` (drop ASCII whitespace from
  both ends).
-/

namespace PyQtChat

/-- One conversation message, as stored in ChatTab.conversation_history:
a dict with role, content and (for assistant messages) the model name. -/
structure Msg where
  role : String
  content : String
  model : Option String := none
deriving DecidableEq, Repr

/-- Helper: the user message dict appended by ChatTab.send_message and by
ChatWorker.run (a dict with role user and the given content). -/
def Msg.user (content : String) : Msg := ⟨"user", content, none⟩

/-- One item of the chat_layout of a ChatTab: the suggestions container,
a ChatMessage widget (with its is_user_message flag and raw_content), or
the trailing stretch item. -/
inductive Widget where
  | suggestions : Widget
  | chatMsg (isUser : Bool) (content : String) : Widget
  | stretch : Widget
deriving DecidableEq, Repr

/-- Whether a layout item is a ChatMessage widget (isinstance check in the
source). -/
def Widget.isChatMsg : Widget → Bool
  | .chatMsg _ _ => true
  | _ => false

/-- The events a ChatWorker emits to its owning ChatTab: the pyqtSignals
message_received(str), error_occurred(str) and finished(str).  The source
declares no other signal; in particular there is no cancellation signal. -/
inductive WEvent where
  | chunk (text : String) : WEvent
  | errored (msg : String) : WEvent
  | finished (reason : String) : WEvent
deriving DecidableEq, Repr

/-- ASCII whitespace, the characters removed by Python str.strip(). -/
def isWS (c : Char) : Bool := c = ' ' ∨ c = '\t' ∨ c = '\n' ∨ c = '\r'

/-- Embedding of Python str.strip(): drop whitespace from both ends. -/
def pyStrip (s : String) : String :=
  ⟨(((s.data.dropWhile isWS).reverse.dropWhile isWS).reverse)⟩

/-- Insert an element at a given position of a list (Qt insertWidget). -/
def insertAt (n : Nat) (a : α) (l : List α) : List α :=
  l.take n ++ a :: l.drop n

/-! ### ChatWorker (src/core/chat_worker.py lines 41-125)

The run method normalizes each item of the provider stream to an optional
choices list (scenario 1: the item exposes choices; scenario 2: a tuple
wraps such an item; otherwise the item is ignored), then reads, from the
first choice, an optional delta content and an optional finish_reason.
Python truthiness makes None and the empty string both skip the emit and
the finish-reason record. -/

/-- The first choice of a normalized stream chunk: optional delta content
and optional finish_reason.  delta = none covers a missing or falsy delta
object and a missing content attribute. -/
structure Choice where
  delta : Option String
  finish_reason : Option String
deriving DecidableEq, Repr

/-- A raw stream item after the shape sniffing of run: either no choices
were found (item ignored) or the list of choices. -/
abbrev StreamItem : Type := Option (List Choice)

/-- Processing of one stream item inside the loop of ChatWorker.run
(lines 73-118): returns the accumulated message, the overall finish
reason and the events emitted for this item. -/
def processItem (acc : String) (finOverall : Option String) (item : StreamItem) :
    String × Option String × List WEvent :=
  match item with
  | none => (acc, finOverall, [])
  | some [] => (acc, finOverall, [])
  | some (choice :: _) =>
    let contentToEmit := choice.delta
    let chunkFin := choice.finish_reason
    let accAndEvents :=
      match contentToEmit with
      | some c => if c = "" then (acc, ([] : List WEvent)) else (acc ++ c, [WEvent.chunk c])
      | none => (acc, [])
    let finNext :=
      match chunkFin with
      | some r => if r = "" then finOverall else some r
      | none => finOverall
    (accAndEvents.1, finNext, accAndEvents.2)

/-- Whether the _should_stop flag is observed at iteration i: the flag is
set externally by stop_safely; stopAt = some k models a stop request that
becomes visible from the k-th chunk boundary on. -/
def shouldStop (stopAt : Option Nat) (i : Nat) : Bool :=
  match stopAt with
  | some k => k ≤ i
  | none => false

/-- The stream loop of ChatWorker.run (lines 67-118): at the top of each
iteration the stop flag is consulted and, if set, the loop breaks. -/
def runLoop : List StreamItem → Option Nat → Nat → String → Option String →
    String × Option String × List WEvent
  | [], _, _, acc, fin => (acc, fin, [])
  | item :: rest, stopAt, i, acc, fin =>
    if shouldStop stopAt i then (acc, fin, [])
    else
      let step := processItem acc fin item
      let tail := runLoop rest stopAt (i + 1) step.1 step.2.1
      (tail.1, tail.2.1, step.2.2 ++ tail.2.2)

/-- The terminal reason emitted at line 120-122: the overall finish reason
if truthy, else the default stop. -/
def finalReason (fin : Option String) : String :=
  match fin with
  | some r => if r = "" then "stop" else r
  | none => "stop"

/-- The full fault-free run of ChatWorker.run on a scripted stream: the
loop followed by the single finished emission (lines 120-122). -/
def runEvents (items : List StreamItem) (stopAt : Option Nat) : List WEvent :=
  let res := runLoop items stopAt 0 "" none
  res.2.2 ++ [WEvent.finished (finalReason res.2.1)]

/-- The accumulated current_ai_message of the worker at the end of a
fault-free run. -/
def runAccum (items : List StreamItem) (stopAt : Option Nat) : String :=
  (runLoop items stopAt 0 "" none).1

/-- The events ChatWorker.run emits when the stream raises a fault after
the items already consumed (lines 133-222): the already emitted chunk
events, then error_occurred with the classified message, then
finished with reason error. -/
def runEventsFault (items : List StreamItem) (classifiedMsg : String) : List WEvent :=
  (runLoop items none 0 "" none).2.2 ++
    [WEvent.errored classifiedMsg, WEvent.finished "error"]

/-- Python substring test (the in operator on strings), via splitOn: the
pattern occurs iff splitting on it yields more than one piece. -/
def containsSub (s pat : String) : Bool := (s.splitOn pat).length > 1

/-- Whether any of the patterns occurs in the string (the any(...) calls of
the classifier). -/
def containsAny (s : String) (pats : List String) : Bool :=
  pats.any (fun p => containsSub s p)

/-- The error classifier of ChatWorker.run (lines 133-218): matches known
substrings of the lowercased error text and produces the user friendly
message.  The model name is interpolated in the model-availability arm. -/
def classifyError (errorText model : String) : String :=
  let errorStr := errorText.toLower
  if containsAny errorStr ["bearer", "authentication", "unauthorized", "401"] then
    "API authentication failed. Please check your API key in Settings → Preferences and ensure it's valid and has sufficient credits."
  else if containsAny errorStr ["quota", "billing", "insufficient", "exceeded"] then
    "You've exceeded your API quota or have insufficient credits. Please check your API account billing and usage."
  else if containsAny errorStr ["rate limit", "429", "too many requests"] then
    "You've hit the API rate limit. Please wait a moment before sending another message."
  else if containsAny errorStr ["model not found", "invalid model", "model unavailable"] then
    "The model '" ++ model ++ "' is not available or accessible with your API key. Try selecting a different model."
  else if containsAny errorStr ["connection", "network", "timeout", "dns", "unreachable"] then
    "Connection error. Please check your connection and API keys, then try again."
  else if containsAny errorStr ["context length", "token limit", "max tokens", "context_length_exceeded"] then
    "The conversation is too long for this model. Try starting a new chat."
  else if containsAny errorStr ["content policy", "safety", "filtered", "blocked"] then
    "Your message was blocked by content safety filters. Please try rephrasing your request."
  else if containsAny errorStr ["500", "502", "503", "504", "internal server", "bad gateway", "service unavailable"] then
    "The AI service is temporarily unavailable. Please try again in a few moments."
  else if containsSub errorStr "timeout" then
    "The request timed out. The AI service might be experiencing high demand. Please try again."
  else errorText

/-- The prompt messages ChatWorker.run submits to the provider
(lines 50-53): the conversation_history list it holds a reference to,
followed by a fresh user message with the text passed at construction. -/
def promptMessages (conversationHistory : List Msg) (message : String) : List Msg :=
  conversationHistory ++ [Msg.user message]

/-! ### ChatTab (src/ui/chat_tab.py)

The mutable fields of a ChatTab that the session logic touches.  The
chat_worker slot is modelled by an optional isRunning flag (none when the
slot holds None).  surfacedErrors records the messages passed to
show_error, newest last. -/

/-- The session-relevant state of one ChatTab. -/
@[ext]
structure TabState where
  conversation_history : List Msg
  current_ai_message : String
  chat_worker : Option Bool
  current_model : Option String
  aiWidgetIdx : Option Nat
  layout : List Widget
  surfacedErrors : List String
deriving DecidableEq, Repr

/-- A freshly constructed ChatTab: empty history, empty buffer, no worker,
layout holding the suggestions widget and the trailing stretch. -/
def initialTab : TabState :=
  { conversation_history := []
    current_ai_message := ""
    chat_worker := none
    current_model := none
    aiWidgetIdx := none
    layout := [Widget.suggestions, Widget.stretch]
    surfacedErrors := [] }

/-- ChatTab.terminate_worker (lines 165-178): if a worker exists and is
running, stop it safely (stop flag, quit, bounded 3 second wait, forced
termination fallback) and clear the slot; otherwise nothing changes. -/
def terminate_worker (s : TabState) : TabState :=
  match s.chat_worker with
  | some true => { s with chat_worker := none }
  | _ => s

/-- The warning text of the synthetic truncation message added when the
finish reason is length (lines 342-347). -/
def lengthWarnText : String :=
  "Warning: The response may have been truncated due to reaching the maximum token limit. Increase your max tokens via Settings -> Preferences -> Chat -> Max Tokens. "

/-- ChatTab.handle_ai_message_chunk (lines 254-277): append the chunk to
the buffer; on the first chunk insert a new assistant ChatMessage widget
just before the stretch, afterwards update that same widget (held by
reference; its layout index is stable during a run) to the full buffer. -/
def handle_ai_message_chunk (s : TabState) (c : String) : TabState :=
  let buf := s.current_ai_message ++ c
  match s.aiWidgetIdx with
  | none =>
    { s with current_ai_message := buf
             aiWidgetIdx := some (s.layout.length - 1)
             layout := insertAt (s.layout.length - 1) (Widget.chatMsg false buf) s.layout }
  | some i =>
    { s with current_ai_message := buf
             layout := s.layout.set i (Widget.chatMsg false buf) }

/-- ChatTab.handle_chat_finished (lines 304-357): if the buffer is
nonempty, append it to the history as an assistant message tagged with the
model, and on finish reason length additionally insert the synthetic
warning ChatMessage; finally clear the worker slot (stop_safely first if
still running).  The buffer itself is NOT reset here. -/
def handle_chat_finished (s : TabState) (finishReason : String) : TabState :=
  let s1 :=
    if s.current_ai_message = "" then s
    else
      let s' := { s with conversation_history :=
        s.conversation_history ++
          [⟨"assistant", s.current_ai_message, s.current_model⟩] }
      if finishReason = "length" then
        { s' with layout :=
            insertAt (s'.layout.length - 1) (Widget.chatMsg false lengthWarnText) s'.layout }
      else s'
  { s1 with chat_worker := none }

/-- The keyword list of handle_error (lines 282-288). -/
def token_error_keywords : List String :=
  ["maximum context length", "token limit", "max tokens",
   "context_length_exceeded", "finish_reason: length"]

/-- ChatTab.handle_error (lines 279-302): surface exactly one message via
show_error (a truncation warning when a token keyword matches, otherwise
the generic wrapper), then run handle_chat_finished with reason error. -/
def handle_error (s : TabState) (errorMessage : String) : TabState :=
  let surfaced :=
    if containsAny errorMessage.toLower token_error_keywords then
      "Warning: The response may have been truncated due to token limits. Consider increasing max_tokens in settings or shortening your prompt."
    else
      "An error occurred: " ++ errorMessage
  handle_chat_finished { s with surfacedErrors := s.surfacedErrors ++ [surfaced] } "error"

/-- Dispatch of the three worker signals to the connected ChatTab slots
(connections at lines 237-239). -/
def processEvent (s : TabState) : WEvent → TabState
  | WEvent.chunk c => handle_ai_message_chunk s c
  | WEvent.errored m => handle_error s m
  | WEvent.finished r => handle_chat_finished s r

/-- Deliver a list of worker events to the tab in order. -/
def processEvents (s : TabState) (evs : List WEvent) : TabState :=
  evs.foldl processEvent s

/-- Abstract actions recorded by send_message, to state ordering between
stopping the prior worker and starting the new one. -/
inductive Action where
  | stopWorker : Action
  | startWorker : Action
deriving DecidableEq, Repr

/-- ChatTab.send_message up to the point where the new worker is running
(lines 180-248), with the action trace: terminate any existing worker
first; read and strip the input text and return if it is empty; otherwise
(after the double check of the slot) add the user ChatMessage widget,
start the new worker, append the user message to the history, and reset
the buffer and the ai widget reference. -/
def send_message_pre (s : TabState) (inputText : String) : TabState × List Action :=
  let s0 := terminate_worker s
  let tr0 : List Action := match s.chat_worker with
    | some true => [Action.stopWorker]
    | _ => []
  let message := pyStrip inputText
  if message = "" then (s0, tr0)
  else if s0.chat_worker = some true then (s0, tr0)
  else
    let s1 := { s0 with
      layout := insertAt (s0.layout.length - 1) (Widget.chatMsg true message) s0.layout }
    let s2 := { s1 with chat_worker := some true }
    let s3 := { s2 with
      conversation_history := s2.conversation_history ++ [Msg.user message] }
    ({ s3 with current_ai_message := "", aiWidgetIdx := none },
     tr0 ++ [Action.startWorker])

/-- A full send operation: send_message, then (when a worker was started)
the scripted run of that worker delivered to the tab, driving the session
to its terminal state. -/
def sendOp (s : TabState) (inputText : String) (run : List WEvent) : TabState :=
  let s1 := (send_message_pre s inputText).1
  if pyStrip inputText = "" then s1 else processEvents s1 run

/-- Number of running sessions the tab owns (the slot holds at most one
worker). -/
def runningCount (s : TabState) : Nat :=
  if s.chat_worker = some true then 1 else 0

/-! ### History truncation on edit and resend (lines 435-519) -/

/-- ChatTab.remove_messages_after_index (lines 462-478) with the default
include_current = False: remove every ChatMessage widget at a layout index
in the range index+1 .. count-2 (the loop runs to count-1 exclusive, so
the final stretch item survives). -/
def remove_messages_after_index (layout : List Widget) (index : Nat) : List Widget :=
  let rest := layout.drop (index + 1)
  layout.take (index + 1) ++
    rest.dropLast.filter (fun w => ¬ w.isChatMsg) ++
    rest.drop (rest.length - 1)

/-- The counting loop of update_conversation_history_to_index
(lines 484-498): count user and assistant ChatMessage widgets among the
first countLimit layout items (itemAt beyond the end yields None and is
skipped). -/
def countMessagesUpTo (layout : List Widget) (countLimit : Nat) : Nat × Nat :=
  (layout.take countLimit).foldl
    (fun uc_ac w =>
      match w with
      | Widget.chatMsg true _ => (uc_ac.1 + 1, uc_ac.2)
      | Widget.chatMsg false _ => (uc_ac.1, uc_ac.2 + 1)
      | _ => uc_ac)
    (0, 0)

/-- The trimming loop of update_conversation_history_to_index
(lines 500-519): walk the history keeping user messages while fewer than
userCount have been kept and assistant messages while fewer than aiCount
have been kept; the first message of either role over its budget BREAKS
the loop; a message of any other role matches neither branch and is
silently skipped while the walk continues. -/
def trimLoop : List Msg → Nat → Nat → Nat → Nat → List Msg
  | [], _, _, _, _ => []
  | m :: rest, userCount, aiCount, cu, ca =>
    if m.role = "user" then
      if cu < userCount then m :: trimLoop rest userCount aiCount (cu + 1) ca else []
    else if m.role = "assistant" then
      if ca < aiCount then m :: trimLoop rest userCount aiCount cu (ca + 1) else []
    else trimLoop rest userCount aiCount cu ca

/-- ChatTab.update_conversation_history_to_index (lines 480-519) with the
default exclude_current = False: count widgets up to messageIndex
inclusive, then trim the history to match the counts. -/
def update_conversation_history_to_index (s : TabState) (messageIndex : Nat) : TabState :=
  let counts := countMessagesUpTo s.layout (messageIndex + 1)
  { s with conversation_history :=
      trimLoop s.conversation_history counts.1 counts.2 0 0 }

/-- The truncation part of ChatTab.update_last_message (lines 435-454),
given the layout index of the target widget: remove all ChatMessage
widgets after it, remove the target itself, then rebuild the history from
the widget counts before the target (message_index - 1 is passed, and the
counting loop adds one back). -/
def update_last_message_truncate (s : TabState) (widx : Nat) : TabState :=
  let l1 := remove_messages_after_index s.layout widx
  let l2 := l1.eraseIdx widx
  update_conversation_history_to_index { s with layout := l2 } (widx - 1)

/-- ChatTab.update_last_message (lines 435-460) followed by the scripted
run of the new worker: truncate at the target widget, set the input field
to the stripped new text (or, when the text is empty, to the raw content
of the target widget: the resend path), then send_message. -/
def update_last_message (s : TabState) (widx : Nat) (text : String) (run : List WEvent) :
    TabState :=
  let raw := match s.layout.get? widx with
    | some (Widget.chatMsg _ c) => c
    | _ => ""
  let s1 := update_last_message_truncate s widx
  let inputText := if text ≠ "" then pyStrip text else raw
  sendOp s1 inputText run

/-! ### Workspace (src/ui/main_window.py lines 412-465) -/

/-- Actions recorded by delete_chat_tab, to state that the removed tab is
shut down before it is discarded. -/
inductive DelAction where
  | terminateTab (index : Nat) : DelAction
  | removeTab (index : Nat) : DelAction
deriving DecidableEq, Repr

/-- ChatbotApp.delete_chat_tab (lines 412-465), restricted to the tab list
itself: refuse when the index is out of range, when only one tab remains
(the warning dialog), or when the user does not confirm; otherwise
terminate the worker of the doomed tab first and then remove the tab. -/
def delete_chat_tab (tabs : List TabState) (index : Nat) (confirm : Bool) :
    List TabState × List DelAction :=
  if index ≥ tabs.length then (tabs, [])
  else if tabs.length = 1 then (tabs, [])
  else if ¬ confirm then (tabs, [])
  else
    ((tabs.set index (terminate_worker (tabs.getD index initialTab))).eraseIdx index,
     [DelAction.terminateTab index, DelAction.removeTab index])

/-! ### Specification-side definitions

These definitions follow the words of the specification; the theorems
below relate them to the source embedding above. -/

/-- The extractable text delta of a stream item: the delta content of its
first choice, when present and nonempty (Python truthiness). -/
def extractDelta (item : StreamItem) : Option String :=
  match item with
  | some (c :: _) =>
    match c.delta with
    | some d => if d = "" then none else some d
    | none => none
  | _ => none

/-- The extractable deltas of a stream, in order. -/
def extractDeltas (items : List StreamItem) : List String :=
  items.filterMap extractDelta

/-- The finish reason a stream item supplies, when present and nonempty. -/
def chunkFinish (item : StreamItem) : Option String :=
  match item with
  | some (c :: _) =>
    match c.finish_reason with
    | some r => if r = "" then none else some r
    | none => none
  | _ => none

/-- The last finish reason any item of the stream supplied. -/
def lastFinish (items : List StreamItem) : Option String :=
  items.foldl (fun a it => (chunkFinish it).elim a some) none

/-- Concatenation of a list of strings, left to right. -/
def concatAll (l : List String) : String :=
  l.foldl (fun a b => a ++ b) ""

/-- Number of messages with the given role. -/
def countRole (r : String) (l : List Msg) : Nat :=
  l.countP (fun m => m.role == r)

/-- Number of user ChatMessage widgets in a layout fragment. -/
def countUserW (l : List Widget) : Nat :=
  l.countP (fun w => match w with | Widget.chatMsg true _ => true | _ => false)

/-- Number of non-user ChatMessage widgets in a layout fragment. -/
def countAiW (l : List Widget) : Nat :=
  l.countP (fun w => match w with | Widget.chatMsg false _ => true | _ => false)

/-- The ChatMessage widget displaying a history entry: is_user_message is
set exactly for role user (load_conversation_history and the normal send
flow agree on this). -/
def toWidget (m : Msg) : Widget :=
  Widget.chatMsg (m.role == "user") m.content

/-- Strict role alternation from index 0, starting with user: the History
alternation property of the specification. -/
def altFrom (expectUser : Bool) : List Msg → Bool
  | [] => true
  | m :: rest =>
    (m.role == (if expectUser then "user" else "assistant")) && altFrom (!expectUser) rest

/-- Roles strictly alternate user, assistant, user, assistant, ... -/
def rolesAlternate (l : List Msg) : Bool := altFrom true l

/-- An equivalent formulation of the trimming loop with remaining budgets
counting down instead of counters counting up against fixed limits. -/
def trimAux : List Msg → Nat → Nat → List Msg
  | [], _, _ => []
  | m :: rest, ru, ra =>
    if m.role = "user" then
      match ru with
      | 0 => []
      | ru + 1 => m :: trimAux rest ru ra
    else if m.role = "assistant" then
      match ra with
      | 0 => []
      | ra + 1 => m :: trimAux rest ru ra
    else trimAux rest ru ra

/-- One completed exchange of the normal send flow: the user text sent,
the accumulated assistant reply, the model tag, and whether the run ended
with finish reason length (which adds the synthetic warning widget to the
layout but not to the history). -/
structure Turn where
  userText : String
  aiText : String
  model : Option String
  warn : Bool

/-- The two history entries a completed exchange contributes. -/
def Turn.msgs (t : Turn) : List Msg :=
  [Msg.user t.userText, ⟨"assistant", t.aiText, t.model⟩]

/-- The ChatMessage widgets a completed exchange contributes to the
layout. -/
def Turn.widgets (t : Turn) : List Widget :=
  Widget.chatMsg true t.userText :: Widget.chatMsg false t.aiText ::
    (if t.warn then [Widget.chatMsg false lengthWarnText] else [])

/-- Well-formedness of a quiescent tab (no session in flight) with respect
to a list of completed exchanges: the history and the layout are exactly
the ones the exchanges produce, and every sent user text is nonempty and
stable under stripping (send_message stores stripped text). -/
def WF (s : TabState) (ts : List Turn) : Prop :=
  s.conversation_history = ts.flatMap Turn.msgs ∧
  s.layout = Widget.suggestions :: (ts.flatMap Turn.widgets ++ [Widget.stretch]) ∧
  s.chat_worker = none ∧
  ∀ t ∈ ts, pyStrip t.userText = t.userText ∧ t.userText ≠ ""

/-- A session run that is driven to a terminal state without fault and
with nonempty accumulated text: chunk events followed by the single
finished event. -/
def goodRun (run : List WEvent) : Prop :=
  ∃ cs r, run = cs.map WEvent.chunk ++ [WEvent.finished r] ∧ concatAll cs ≠ ""

/-- The user-facing operations of the controller, each carrying the
scripted run of the worker it starts. -/
inductive Op where
  | send (text : String) (run : List WEvent) : Op
  | edit (widx : Nat) (text : String) (run : List WEvent) : Op
  | resend (widx : Nat) (run : List WEvent) : Op

/-- Running one operation: send is send_message plus the delivered run;
edit is handle_edit_request (which refuses while a worker runs, then
update_last_message with the dialog text); resend is handle_resend_request
(update_last_message with empty text, resubmitting the raw content). -/
def applyOp (s : TabState) : Op → TabState
  | Op.send text run => sendOp s text run
  | Op.edit widx text run =>
    if s.chat_worker = some true then s else update_last_message s widx text run
  | Op.resend widx run => update_last_message s widx "" run

/-- Run a list of operations in order. -/
def execOps (s : TabState) : List Op → TabState
  | [] => s
  | op :: ops => execOps (applyOp s op) ops

/-- The target of an edit or resend is a user ChatMessage widget of the
current layout (the edit and resend signals exist only on user message
widgets). -/
def isUserTarget (s : TabState) (widx : Nat) : Prop :=
  ∃ c, s.layout.get? widx = some (Widget.chatMsg true c)

/-- A valid interactive trace: every run is driven to a terminal state
without fault and with nonempty text, every edit passes the nonempty
dialog guard, and every edit or resend targets a user message widget of
the state it runs in. -/
inductive ValidOps : TabState → List Op → Prop
  | nil (s : TabState) : ValidOps s []
  | send (s : TabState) (text : String) (run : List WEvent) (ops : List Op) :
      goodRun run → ValidOps (applyOp s (Op.send text run)) ops →
      ValidOps s (Op.send text run :: ops)
  | edit (s : TabState) (widx : Nat) (text : String) (run : List WEvent) (ops : List Op) :
      goodRun run → pyStrip text ≠ "" → isUserTarget s widx →
      ValidOps (applyOp s (Op.edit widx text run)) ops →
      ValidOps s (Op.edit widx text run :: ops)
  | resend (s : TabState) (widx : Nat) (run : List WEvent) (ops : List Op) :
      goodRun run → isUserTarget s widx →
      ValidOps (applyOp s (Op.resend widx run)) ops →
      ValidOps s (Op.resend widx run :: ops)

/-! ## Theorems -/

/-! ### Stream processing lemmas (ChatWorker.run) -/

theorem concatAll_foldl (l : List String) (a : String) :
    l.foldl (fun x y => x ++ y) a = a ++ concatAll l := by
  induction l generalizing a with
  | nil => simp [concatAll]
  | cons b l ih =>
    simp only [List.foldl_cons, concatAll] at *
    rw [ih (a ++ b), ih ("" ++ b), String.empty_append, String.append_assoc]

theorem concatAll_cons (b : String) (l : List String) :
    concatAll (b :: l) = b ++ concatAll l := by
  simp only [concatAll, List.foldl_cons]
  rw [concatAll_foldl, String.empty_append]
  rfl

theorem processItem_spec (acc : String) (fin : Option String) (item : StreamItem) :
    processItem acc fin item =
      ((extractDelta item).elim acc (fun d => acc ++ d),
       (chunkFinish item).elim fin some,
       (extractDelta item).elim [] (fun d => [WEvent.chunk d])) := by
  rcases item with _ | ⟨_ | ⟨c, cs⟩⟩
  · rfl
  · rfl
  · rcases c with ⟨d, f⟩
    rcases d with _ | d <;> rcases f with _ | f <;>
      simp only [processItem, extractDelta, chunkFinish, Option.elim] <;>
      (try split_ifs) <;> simp_all

theorem runLoop_none (items : List StreamItem) (i : Nat) (acc : String)
    (fin : Option String) :
    runLoop items none i acc fin =
      (acc ++ concatAll (extractDeltas items),
       items.foldl (fun a it => (chunkFinish it).elim a some) fin,
       (extractDeltas items).map WEvent.chunk) := by
  induction items generalizing i acc fin with
  | nil => simp [runLoop, extractDeltas, concatAll]
  | cons item rest ih =>
    simp only [runLoop, shouldStop, if_false, Bool.false_eq_true]
    rw [processItem_spec, ih]
    cases h : extractDelta item <;>
      simp [extractDeltas, h, concatAll_cons, String.append_assoc]

theorem chunkFinish_ne_empty (item : StreamItem) : chunkFinish item ≠ some "" := by
  rcases item with _ | ⟨_ | ⟨c, cs⟩⟩ <;> simp [chunkFinish]
  rcases c with ⟨d, f⟩
  rcases f with _ | f <;> simp

theorem lastFinish_ne_empty (items : List StreamItem) : lastFinish items ≠ some "" := by
  have key : ∀ (l : List StreamItem) (fin : Option String), fin ≠ some "" →
      l.foldl (fun a it => (chunkFinish it).elim a some) fin ≠ some "" := by
    intro l
    induction l with
    | nil => intro fin h; exact h
    | cons item rest ih =>
      intro fin h
      simp only [List.foldl_cons]
      apply ih
      cases hc : chunkFinish item with
      | none => simpa using h
      | some r =>
        have := chunkFinish_ne_empty item
        simp_all
  exact key items none (by simp)

theorem finalReason_getD (fin : Option String) (h : fin ≠ some "") :
    finalReason fin = fin.getD "stop" := by
  cases fin with
  | none => rfl
  | some r =>
    simp only [finalReason, Option.getD]
    split_ifs with hr
    · exact absurd (by rw [hr]) h
    · rfl

theorem runEvents_none_spec (items : List StreamItem) :
    runEvents items none =
      (extractDeltas items).map WEvent.chunk ++
        [WEvent.finished ((lastFinish items).getD "stop")] := by
  simp only [runEvents, runLoop_none]
  have hl : List.foldl (fun a it => (chunkFinish it).elim a some) none items =
      lastFinish items := rfl
  rw [hl, finalReason_getD _ (lastFinish_ne_empty items)]

/-- Claim C4 (stream accumulation and finish reason): a fault-free,
uncancelled run of ChatWorker.run on a finite scripted stream emits its
chunk events in stream order, with the accumulated text equal to the
concatenation of the extractable deltas, followed by exactly one finished
event carrying the last finish reason any chunk supplied (default stop);
items with neither a delta nor a finish reason contribute nothing. -/
theorem stream_accumulation_and_finish (items : List StreamItem) :
    runEvents items none =
      (extractDeltas items).map WEvent.chunk ++
        [WEvent.finished ((lastFinish items).getD "stop")] ∧
    runAccum items none = concatAll (extractDeltas items) := by
  constructor
  · exact runEvents_none_spec items
  · simp [runAccum, runLoop_none, String.empty_append]

theorem runLoop_stop_take (items : List StreamItem) (k i : Nat) (acc : String)
    (fin : Option String) :
    runLoop items (some k) i acc fin = runLoop (items.take (k - i)) none i acc fin := by
  induction items generalizing k i acc fin with
  | nil => simp [runLoop]
  | cons item rest ih =>
    by_cases h : k ≤ i
    · have hk : k - i = 0 := Nat.sub_eq_zero_of_le h
      simp [runLoop, shouldStop, h, hk]
    · have hk : k - i = (k - (i + 1)) + 1 := by omega
      rw [hk]
      simp [runLoop, shouldStop, h, List.take_succ_cons, ih]

/-- Claim C2 (cancellation terminal event), amended: when a stop request
becomes visible at chunk boundary k, the run stops consuming further
items and emits exactly the events of a completed run over the consumed
prefix: zero or more chunk events then a single finished event with the
last recorded finish reason (default stop).  Cancellation is never
surfaced as an error (no error event occurs), but the source has no
separate cancellation event: the terminal event is the completion
event. -/
theorem cancellation_stops_and_completes (items : List StreamItem) (k : Nat) :
    runEvents items (some k) = runEvents (items.take k) none ∧
    runEvents items (some k) =
      (extractDeltas (items.take k)).map WEvent.chunk ++
        [WEvent.finished ((lastFinish (items.take k)).getD "stop")] := by
  have h1 : runEvents items (some k) = runEvents (items.take k) none := by
    simp only [runEvents, runLoop_stop_take, Nat.sub_zero]
  exact ⟨h1, h1.trans (runEvents_none_spec (items.take k))⟩

/-- Claim C2, counterexample to the claim as stated: a run with one
pending chunk and a stop visible from the first chunk boundary emits the
finished event with reason stop as its single terminal event — the very
same event list as an untouched completed run of an empty stream — so the
cancellation is surfaced as a completion, not as a distinct cancelled
event (the worker declares no cancellation signal at all). -/
theorem cancellation_surfaced_as_completion_cex :
    runEvents [some [(⟨some "Hi", none⟩ : Choice)]] (some 0) =
      [WEvent.finished "stop"] ∧
    runEvents ([] : List StreamItem) none = [WEvent.finished "stop"] := by
  constructor <;> rfl

/-! ### Single flight (ChatTab.send_message / terminate_worker) -/

theorem no_start_before_stop (tr : List Action)
    (h : tr = [] ∨ tr = [Action.stopWorker] ∨ tr = [Action.startWorker] ∨
      tr = [Action.stopWorker, Action.startWorker]) :
    ∀ i j, tr.get? i = some Action.startWorker → tr.get? j = some Action.stopWorker →
      j < i := by
  rcases h with h | h | h | h <;> subst h <;> intro i j hi hj
  · simp at hi
  · rcases i with _ | i <;> simp_all
  · rcases j with _ | j <;> simp_all
  · rcases i with _ | _ | i <;> rcases j with _ | _ | j <;> simp_all

theorem send_trace_shape (s : TabState) (text : String) :
    (send_message_pre s text).2 =
      (if s.chat_worker = some true then [Action.stopWorker] else []) ++
        (if pyStrip text = "" then [] else [Action.startWorker]) := by
  rcases hw : s.chat_worker with _ | b
  · by_cases ht : pyStrip text = "" <;>
      simp [send_message_pre, terminate_worker, hw, ht]
  · rcases b <;> by_cases ht : pyStrip text = "" <;>
      simp [send_message_pre, terminate_worker, hw, ht]

/-- Claim C1 (single flight), amended: calling send in any controller
state first drives the prior running session to a terminal state before
any new session is started (every stop action precedes every start action
in the trace, and a running prior worker is stopped first), and afterward
at most one session is running — exactly one when the stripped input text
is nonempty, but zero when it is empty, because the prior worker is
terminated before the empty-text check. -/
theorem single_flight_amended (s : TabState) (text : String) :
    runningCount (send_message_pre s text).1 ≤ 1 ∧
    (pyStrip text ≠ "" → runningCount (send_message_pre s text).1 = 1) ∧
    (s.chat_worker = some true →
      (send_message_pre s text).2.head? = some Action.stopWorker) ∧
    (∀ i j, (send_message_pre s text).2.get? i = some Action.startWorker →
      (send_message_pre s text).2.get? j = some Action.stopWorker → j < i) := by
  refine ⟨?_, ?_, ?_, ?_⟩
  · rcases hw : s.chat_worker with _ | b
    · by_cases ht : pyStrip text = "" <;>
        simp [send_message_pre, terminate_worker, runningCount, hw, ht]
    · rcases b <;> by_cases ht : pyStrip text = "" <;>
        simp [send_message_pre, terminate_worker, runningCount, hw, ht]
  · intro ht
    rcases hw : s.chat_worker with _ | b
    · simp [send_message_pre, terminate_worker, runningCount, hw, ht]
    · rcases b <;> simp [send_message_pre, terminate_worker, runningCount, hw, ht]
  · intro hw
    rw [send_trace_shape]
    by_cases ht : pyStrip text = "" <;> simp [hw, ht]
  · apply no_start_before_stop
    rw [send_trace_shape]
    by_cases hw : s.chat_worker = some true <;> by_cases ht : pyStrip text = "" <;>
      simp [hw, ht]

/-- Claim C1, counterexample to the claim as stated: in a state with a
running session and an empty input field (the state a streaming tab is
normally in, since send_message clears the input), calling send
terminates the prior worker and then hits the empty-text early return, so
afterward ZERO sessions are running, not exactly one. -/
theorem single_flight_cex :
    runningCount { initialTab with chat_worker := some true } = 1 ∧
    runningCount (send_message_pre { initialTab with chat_worker := some true } "").1 = 0 := by
  exact ⟨rfl, rfl⟩

theorem single_flight_witness :
    runningCount (send_message_pre { initialTab with chat_worker := some true } "hi").1 = 1 :=
  (single_flight_amended { initialTab with chat_worker := some true } "hi").2.1 (by decide)

/-! ### Error handling at the controller (handle_error / handle_chat_finished) -/

/-- Claim C3 (error non-pollution), amended: when the worker faults
before any extractable text was accumulated (no chunk event preceded the
fault and the assistant buffer is empty), delivering the fault events to
the tab appends no assistant message to the conversation history and
surfaces exactly one classified error. -/
theorem error_no_pollution_amended (s : TabState) (items : List StreamItem)
    (m : String) (hd : extractDeltas items = []) (hbuf : s.current_ai_message = "") :
    (processEvents s (runEventsFault items m)).conversation_history =
      s.conversation_history ∧
    (processEvents s (runEventsFault items m)).surfacedErrors.length =
      s.surfacedErrors.length + 1 := by
  have hfault : runEventsFault items m = [WEvent.errored m, WEvent.finished "error"] := by
    simp [runEventsFault, runLoop_none, hd]
  rw [hfault]
  simp only [processEvents, List.foldl_cons, List.foldl_nil, processEvent]
  unfold handle_error handle_chat_finished
  split_ifs <;> simp_all

theorem error_no_pollution_amended_witness :
    (processEvents initialTab (runEventsFault [] "boom")).conversation_history = [] ∧
    (processEvents initialTab (runEventsFault [] "boom")).surfacedErrors.length = 1 := by
  have := error_no_pollution_amended initialTab [] "boom" (by decide) (by decide)
  simpa using this

/-- Claim C3, counterexample to the claim as stated: a provider fault
classified as RateLimit that occurs after a chunk carrying the text Hi
results in TWO assistant messages appended to the history (handle_error
calls handle_chat_finished, and the finished signal of the worker calls
it again, each appending the nonempty buffer), not zero; exactly one
error is surfaced. -/
theorem error_pollution_cex :
    countRole "assistant"
      (sendOp initialTab "q"
        (runEventsFault [some [(⟨some "Hi", none⟩ : Choice)]]
          (classifyError "RateLimitError: 429" "gpt"))).conversation_history = 2 ∧
    (sendOp initialTab "q"
      (runEventsFault [some [(⟨some "Hi", none⟩ : Choice)]]
        (classifyError "RateLimitError: 429" "gpt"))).surfacedErrors.length = 1 := by
  exact ⟨by decide, by decide⟩

/-! ### Late events of a superseded session -/

/-- Claim C5: the failing scenario evaluated on the embedding.  A first
send starts worker A; a second send terminates A and starts worker B,
whose first chunk fills the buffer; the late finished(stop) signal of A
is still connected and is handled by handle_chat_finished against the
current state: it appends the in-flight buffer of B to the history as a
finished assistant message and clears (after stopping) the slot of the
running worker B.  The late event of the superseded session is therefore
processed and applied, not discarded. -/
theorem late_event_from_superseded_session_applied :
    (processEvents (send_message_pre (send_message_pre initialTab "first").1 "second").1
        [WEvent.chunk "New"]).chat_worker = some true ∧
    (handle_chat_finished
        (processEvents (send_message_pre (send_message_pre initialTab "first").1 "second").1
          [WEvent.chunk "New"]) "stop").conversation_history =
      [Msg.user "first", Msg.user "second", ⟨"assistant", "New", none⟩] ∧
    (handle_chat_finished
        (processEvents (send_message_pre (send_message_pre initialTab "first").1 "second").1
          [WEvent.chunk "New"]) "stop").chat_worker = none := by
  refine ⟨by decide, by decide, by decide⟩

/-! ### Prompt construction of a new session -/

/-- Claim C8: the worker holds a reference to the live
conversation_history list, and send_message appends the new user message
to that very list right after starting the worker; when the worker thread
builds its prompt after that append (the ordinary interleaving, since the
append is the next statement on the UI thread), the submitted messages
contain the new user message twice — not an immutable snapshot with the
message exactly once. -/
theorem prompt_contains_user_message_twice (s : TabState) (text : String)
    (h : pyStrip text ≠ "") :
    promptMessages (send_message_pre s text).1.conversation_history (pyStrip text) =
      s.conversation_history ++ [Msg.user (pyStrip text), Msg.user (pyStrip text)] := by
  rcases hw : s.chat_worker with _ | b
  · simp [send_message_pre, terminate_worker, promptMessages, hw, h]
  · rcases b <;> simp [send_message_pre, terminate_worker, promptMessages, hw, h]

theorem prompt_contains_user_message_twice_witness :
    promptMessages (send_message_pre initialTab "hi").1.conversation_history
        (pyStrip "hi") =
      ([] : List Msg) ++ [Msg.user (pyStrip "hi"), Msg.user (pyStrip "hi")] :=
  prompt_contains_user_message_twice initialTab "hi" (by decide)

/-! ### Workspace floor (ChatbotApp.delete_chat_tab) -/

/-- Claim C9 (workspace floor): deleting the only remaining tab is
refused and leaves the workspace unchanged; the tab count never reaches
zero; and whenever a deletion actually happens, the removed tab is
terminated before it is removed (the action trace is exactly terminate
then remove) and at least two tabs existed. -/
theorem workspace_floor (tabs : List TabState) (index : Nat) (confirm : Bool) :
    (tabs.length = 1 → delete_chat_tab tabs index confirm = (tabs, [])) ∧
    (1 ≤ tabs.length → 1 ≤ (delete_chat_tab tabs index confirm).1.length) ∧
    ((delete_chat_tab tabs index confirm).2 ≠ [] →
      (delete_chat_tab tabs index confirm).2 =
        [DelAction.terminateTab index, DelAction.removeTab index] ∧
      2 ≤ tabs.length ∧
      (delete_chat_tab tabs index confirm).1.length = tabs.length - 1) := by
  by_cases h1 : index ≥ tabs.length
  · simp [delete_chat_tab, h1]
  · by_cases h2 : tabs.length = 1
    · simp [delete_chat_tab, h1, h2]
    · by_cases h3 : confirm = true
      · have hidx : index < tabs.length := Nat.lt_of_not_le h1
        have hlen : ((tabs.set index
            (terminate_worker (tabs.getD index initialTab))).eraseIdx index).length =
            tabs.length - 1 := by
          rw [List.length_eraseIdx]
          simp [hidx]
        have hd : delete_chat_tab tabs index confirm =
            ((tabs.set index
              (terminate_worker (tabs.getD index initialTab))).eraseIdx index,
             [DelAction.terminateTab index, DelAction.removeTab index]) := by
          simp [delete_chat_tab, h1, h2, h3]
        rw [hd]
        refine ⟨fun hc => absurd hc h2, fun _ => ?_, fun _ => ⟨rfl, by omega, hlen⟩⟩
        simp only [hlen]
        omega
      · simp [delete_chat_tab, h1, h2, h3]

theorem workspace_floor_witness :
    delete_chat_tab [initialTab] 0 true = ([initialTab], []) :=
  (workspace_floor [initialTab] 0 true).1 rfl

/-! ### Truncation drops foreign roles -/

theorem trimLoop_all_user_assistant (h : List Msg) (uC aC cu ca : Nat) :
    (trimLoop h uC aC cu ca).all
      (fun m => m.role == "user" || m.role == "assistant") = true := by
  induction h generalizing cu ca with
  | nil => rfl
  | cons m rest ih =>
    by_cases hu : m.role = "user"
    · by_cases hcu : cu < uC <;> simp [trimLoop, hu, hcu, ih, List.all_cons]
    · by_cases ha : m.role = "assistant"
      · by_cases hca : ca < aC <;> simp [trimLoop, hu, ha, hca, ih, List.all_cons]
      · simp [trimLoop, hu, ha, ih]

theorem trimLoop_eq_filter (h : List Msg) (uC aC cu ca : Nat) :
    trimLoop h uC aC cu ca =
      trimLoop (h.filter (fun m => m.role == "user" || m.role == "assistant"))
        uC aC cu ca := by
  induction h generalizing cu ca with
  | nil => rfl
  | cons m rest ih =>
    by_cases hu : m.role = "user"
    · by_cases hcu : cu < uC <;>
        simp [trimLoop, List.filter_cons, hu, hcu, ih]
    · by_cases ha : m.role = "assistant"
      · by_cases hca : ca < aC <;>
          simp [trimLoop, List.filter_cons, hu, ha, hca, ih]
      · simp [trimLoop, List.filter_cons, hu, ha, ih]

/-- Claim C10: the trimming loop of update_conversation_history_to_index
keeps only messages whose role is user or assistant, and it behaves on
any history exactly as on that history with every other-role entry
removed: a foreign-role entry (for example an imported system message) is
silently dropped while the walk continues, neither preserved nor counted
against either budget. -/
theorem trim_drops_foreign_roles (h : List Msg) (uC aC cu ca : Nat) :
    (trimLoop h uC aC cu ca).all
      (fun m => m.role == "user" || m.role == "assistant") = true ∧
    trimLoop h uC aC cu ca =
      trimLoop (h.filter (fun m => m.role == "user" || m.role == "assistant"))
        uC aC cu ca :=
  ⟨trimLoop_all_user_assistant h uC aC cu ca, trimLoop_eq_filter h uC aC cu ca⟩

/-! ### Truncation correctness (update_last_message) -/

theorem trimLoop_eq_trimAux (h : List Msg) (uC aC cu ca : Nat) :
    trimLoop h uC aC cu ca = trimAux h (uC - cu) (aC - ca) := by
  induction h generalizing cu ca with
  | nil => rfl
  | cons m rest ih =>
    by_cases hu : m.role = "user"
    · by_cases hcu : cu < uC
      · have hsub : uC - cu = (uC - (cu + 1)) + 1 := by omega
        simp [trimLoop, trimAux, hu, hcu, hsub, ih]
      · have hsub : uC - cu = 0 := by omega
        simp [trimLoop, trimAux, hu, hcu, hsub]
    · by_cases ha : m.role = "assistant"
      · by_cases hca : ca < aC
        · have hsub : aC - ca = (aC - (ca + 1)) + 1 := by omega
          simp [trimLoop, trimAux, hu, ha, hca, hsub, ih]
        · have hsub : aC - ca = 0 := by omega
          simp [trimLoop, trimAux, hu, ha, hca, hsub]
      · simp [trimLoop, trimAux, hu, ha, ih]

theorem trimAux_take (h : List Msg) (i : Nat) (a : Nat)
    (hUA : ∀ x ∈ h.take i, x.role = "user" ∨ x.role = "assistant")
    (ha : countRole "assistant" (h.take i) ≤ a)
    (hget : ∀ m, h[i]? = some m → m.role = "user") :
    trimAux h (countRole "user" (h.take i)) a = h.take i := by
  induction h generalizing i a with
  | nil => simp [trimAux]
  | cons m rest ih =>
    rcases i with _ | j
    · have hm : m.role = "user" := hget m (by simp)
      simp [trimAux, countRole, hm]
    · have hm := hUA m (by simp)
      rcases hm with hm | hm
      · have hcount : countRole "user" ((m :: rest).take (j + 1)) =
            countRole "user" (rest.take j) + 1 := by
          simp [countRole, List.countP_cons, hm]
        have hcount2 : countRole "assistant" ((m :: rest).take (j + 1)) =
            countRole "assistant" (rest.take j) := by
          simp [countRole, List.countP_cons, hm]
        rw [hcount]
        simp only [List.take_succ_cons, trimAux, if_pos hm]
        rw [ih j a (fun x hx => hUA x (by simp [hx])) (by omega)
          (fun x hx => hget x (by simpa using hx))]
      · have hmu : ¬ m.role = "user" := by simp [hm]
        have hcount : countRole "user" ((m :: rest).take (j + 1)) =
            countRole "user" (rest.take j) := by
          simp [countRole, List.countP_cons, hm]
        have hcount2 : countRole "assistant" ((m :: rest).take (j + 1)) =
            countRole "assistant" (rest.take j) + 1 := by
          simp [countRole, List.countP_cons, hm]
        rw [hcount]
        have hapos : 0 < a := by omega
        obtain ⟨a', rfl⟩ : ∃ a', a = a' + 1 := ⟨a - 1, by omega⟩
        simp only [List.take_succ_cons, trimAux, if_neg hmu, if_pos hm]
        rw [ih j a' (fun x hx => hUA x (by simp [hx])) (by omega)
          (fun x hx => hget x (by simpa using hx))]

theorem countMessagesUpTo_spec (layout : List Widget) (n : Nat) :
    countMessagesUpTo layout n =
      (countUserW (layout.take n), countAiW (layout.take n)) := by
  have key : ∀ (l : List Widget) (uc ac : Nat),
      l.foldl (fun uc_ac w =>
        match w with
        | Widget.chatMsg true _ => (uc_ac.1 + 1, uc_ac.2)
        | Widget.chatMsg false _ => (uc_ac.1, uc_ac.2 + 1)
        | _ => uc_ac) (uc, ac) =
      (uc + countUserW l, ac + countAiW l) := by
    intro l
    induction l with
    | nil => intro uc ac; simp [countUserW, countAiW]
    | cons w rest ih =>
      intro uc ac
      rcases w with _ | ⟨b, c⟩ | _
      · simp only [List.foldl_cons]
        rw [ih]
        simp [countUserW, countAiW, List.countP_cons]
      · rcases b <;>
          · simp only [List.foldl_cons]
            rw [ih]
            simp [countUserW, countAiW, List.countP_cons]
            omega
      · simp only [List.foldl_cons]
        rw [ih]
        simp [countUserW, countAiW, List.countP_cons]
  unfold countMessagesUpTo
  rw [key]
  simp

theorem countUserW_map (l : List Msg) :
    countUserW (l.map toWidget) = countRole "user" l := by
  induction l with
  | nil => rfl
  | cons m rest ih =>
    rcases hb : (m.role == "user") with _ | _ <;>
      simp [countUserW, countRole, List.countP_cons, toWidget, hb] at ih ⊢ <;>
      simpa [countUserW, countRole] using ih

theorem countAiW_map (l : List Msg)
    (hUA : ∀ x ∈ l, x.role = "user" ∨ x.role = "assistant") :
    countAiW (l.map toWidget) = countRole "assistant" l := by
  induction l with
  | nil => rfl
  | cons m rest ih =>
    have hm := hUA m (by simp)
    have ih' := ih (fun x hx => hUA x (by simp [hx]))
    rcases hm with hm | hm <;>
      simp [countAiW, countRole, List.countP_cons, toWidget, hm] at ih' ⊢ <;>
      simpa [countAiW, countRole] using ih'

theorem map_toWidget_isChatMsg (l : List Msg) :
    ∀ w ∈ l.map toWidget, w.isChatMsg = true := by
  intro w hw
  rcases List.mem_map.mp hw with ⟨m, _, rfl⟩
  rcases hb : (m.role == "user") with _ | _ <;> simp [toWidget, Widget.isChatMsg, hb]

theorem remove_after_on_widgets (W : List Widget) (i : Nat)
    (hW : ∀ w ∈ W, w.isChatMsg = true) (hi : i + 1 ≤ W.length) :
    remove_messages_after_index
        (Widget.suggestions :: (W ++ [Widget.stretch])) (i + 1) =
      Widget.suggestions :: (W.take (i + 1) ++ [Widget.stretch]) := by
  simp only [remove_messages_after_index]
  have hdrop : (Widget.suggestions :: (W ++ [Widget.stretch])).drop (i + 1 + 1) =
      W.drop (i + 1) ++ [Widget.stretch] := by
    simp only [List.drop_succ_cons]
    exact List.drop_append_of_le_length hi
  have htake : (Widget.suggestions :: (W ++ [Widget.stretch])).take (i + 1 + 1) =
      Widget.suggestions :: W.take (i + 1) := by
    simp only [List.take_succ_cons]
    rw [List.take_append_of_le_length hi]
  rw [hdrop, htake]
  have hlast : (W.drop (i + 1) ++ [Widget.stretch]).dropLast = W.drop (i + 1) := by
    simp
  have hfilter : (W.drop (i + 1)).filter (fun w => ¬ w.isChatMsg) = [] := by
    refine List.filter_eq_nil_iff.mpr ?_
    intro w hw
    have := hW w (List.mem_of_mem_drop hw)
    simp [this]
  have hlen : (W.drop (i + 1) ++ [Widget.stretch]).length - 1 =
      (W.drop (i + 1)).length := by
    simp
  rw [hlast, hfilter, hlen, List.drop_left]
  simp

/-- Claim C6 (truncate correctness), amended with the hypothesis that
every history entry has role user or assistant (imported transcripts can
hold other roles, which the trimming loop drops, breaking the first-i
property): with the layout displaying the history one widget per entry,
truncating at the user message of history index i rebuilds the history as
exactly its first i entries, of length i, regardless of how many entries
followed; and resending a target widget is the same operation as editing
it with its own (stripped) raw content. -/
theorem truncate_correctness (s : TabState) (h : List Msg) (i : Nat) (m : Msg)
    (hist : s.conversation_history = h)
    (hlay : s.layout = Widget.suggestions :: (h.map toWidget ++ [Widget.stretch]))
    (hUA : ∀ x ∈ h, x.role = "user" ∨ x.role = "assistant")
    (hget : h[i]? = some m) (hrole : m.role = "user") :
    (update_last_message_truncate s (i + 1)).conversation_history = h.take i ∧
    (h.take i).length = i ∧
    (∀ (run : List WEvent) (widx : Nat) (c : String),
      s.layout.get? widx = some (Widget.chatMsg true c) → pyStrip c = c →
      update_last_message s widx "" run = update_last_message s widx c run) := by
  have hilen : i < h.length := (List.getElem?_eq_some_iff.mp hget).choose
  have hW : ∀ w ∈ h.map toWidget, w.isChatMsg = true := map_toWidget_isChatMsg h
  have hiW : i + 1 ≤ (h.map toWidget).length := by simp; omega
  have htakei : (h.map toWidget).take (i + 1) =
      (h.take i).map toWidget ++ [toWidget m] := by
    rw [← List.map_take, List.take_succ, hget]
    simp
  have hlen_take : ((h.take i).map toWidget).length = i := by
    simp [List.length_take, Nat.min_eq_left (Nat.le_of_lt hilen)]
  refine ⟨?_, by simp [List.length_take, Nat.min_eq_left (Nat.le_of_lt hilen)], ?_⟩
  · simp only [update_last_message_truncate]
    rw [hlay, remove_after_on_widgets (h.map toWidget) i hW hiW]
    have herase : (Widget.suggestions ::
        ((h.map toWidget).take (i + 1) ++ [Widget.stretch])).eraseIdx (i + 1) =
        Widget.suggestions :: ((h.take i).map toWidget ++ [Widget.stretch]) := by
      rw [htakei]
      have : ((h.take i).map toWidget ++ [toWidget m] ++ [Widget.stretch]).eraseIdx i =
          (h.take i).map toWidget ++ [Widget.stretch] := by
        rw [List.append_assoc, ← hlen_take]
        simp [List.eraseIdx_append_of_length_le]
      simp only [List.eraseIdx_cons_succ, this]
    rw [herase]
    simp only [update_conversation_history_to_index]
    rw [countMessagesUpTo_spec]
    have htake2 : (Widget.suggestions ::
        ((h.take i).map toWidget ++ [Widget.stretch])).take (i + 1 - 1 + 1) =
        Widget.suggestions :: (h.take i).map toWidget := by
      simp only [Nat.add_sub_cancel, List.take_succ_cons]
      rw [List.take_append_of_le_length (le_of_eq hlen_take.symm),
        List.take_of_length_le (le_of_eq hlen_take)]
    rw [htake2]
    have hsugg_u : countUserW (Widget.suggestions :: (h.take i).map toWidget) =
        countUserW ((h.take i).map toWidget) := by
      simp [countUserW, List.countP_cons]
    have hsugg_a : countAiW (Widget.suggestions :: (h.take i).map toWidget) =
        countAiW ((h.take i).map toWidget) := by
      simp [countAiW, List.countP_cons]
    have hcu : countUserW (Widget.suggestions :: (h.take i).map toWidget) =
        countRole "user" (h.take i) := by
      rw [hsugg_u, countUserW_map]
    have hca : countAiW (Widget.suggestions :: (h.take i).map toWidget) =
        countRole "assistant" (h.take i) := by
      rw [hsugg_a, countAiW_map _ (fun x hx => hUA x (List.mem_of_mem_take hx))]
    simp only [hcu, hca, hist]
    rw [trimLoop_eq_trimAux]
    simp only [Nat.sub_zero]
    exact trimAux_take h i _ (fun x hx => hUA x (List.mem_of_mem_take hx)) le_rfl
      (fun x hx => by rw [hget] at hx; cases hx; exact hrole)
  · intro run widx c hc hstrip
    unfold update_last_message
    rw [List.get?_eq_getElem?] at hc
    by_cases hce : c = ""
    · simp [hc, hce]
    · simp [hc, hce, hstrip]

/-- Claim C6, counterexample to the claim as stated: on an imported
history holding a system entry before the target user message (history
index 1), the truncation yields the empty history, not the first 1
entries: the widget counting counts the system widget as an assistant
widget while the trimming loop skips the system entry, so the two
disagree and the kept prefix is wrong. -/
theorem truncate_foreign_role_cex :
    (update_last_message_truncate
      { initialTab with
        conversation_history := [⟨"system", "s", none⟩, Msg.user "b"],
        layout := [Widget.suggestions, Widget.chatMsg false "s",
                   Widget.chatMsg true "b", Widget.stretch] } 2).conversation_history
      = [] ∧
    ([⟨"system", "s", none⟩, Msg.user "b"] : List Msg).take 1 =
      [⟨"system", "s", none⟩] := by
  exact ⟨by decide, by decide⟩

theorem truncate_correctness_witness :
    (update_last_message_truncate
      { initialTab with
        conversation_history := [Msg.user "a", ⟨"assistant", "x", none⟩, Msg.user "b"],
        layout := [Widget.suggestions, Widget.chatMsg true "a",
                   Widget.chatMsg false "x", Widget.chatMsg true "b",
                   Widget.stretch] } 3).conversation_history =
      ([Msg.user "a", ⟨"assistant", "x", none⟩, Msg.user "b"] : List Msg).take 2 :=
  (truncate_correctness
    { initialTab with
      conversation_history := [Msg.user "a", ⟨"assistant", "x", none⟩, Msg.user "b"],
      layout := [Widget.suggestions, Widget.chatMsg true "a",
                 Widget.chatMsg false "x", Widget.chatMsg true "b",
                 Widget.stretch] }
    [Msg.user "a", ⟨"assistant", "x", none⟩, Msg.user "b"] 2 (Msg.user "b")
    rfl (by decide) (by decide) (by decide) rfl).1

/-! ### Stripping is idempotent -/

theorem dropWhile_of_head_false {α : Type} (p : α → Bool) (l : List α) (x : α)
    (hh : l.head? = some x) (hx : p x = false) : l.dropWhile p = l := by
  cases l with
  | nil => simp at hh
  | cons a t =>
    have : a = x := by simpa using hh
    subst this
    simp [List.dropWhile_cons, hx]

theorem head_false_of_dropWhile {α : Type} (p : α → Bool) (l : List α) (x : α)
    (h : (l.dropWhile p).head? = some x) : p x = false := by
  have hk := List.head?_dropWhile_not p l
  rw [h] at hk
  exact hk

theorem stripData_eq (l : List Char) :
    pyStrip ⟨l⟩ = ⟨((l.dropWhile isWS).reverse.dropWhile isWS).reverse⟩ := rfl

theorem stripData_head_false (l : List Char) (y : Char)
    (h : (((l.dropWhile isWS).reverse.dropWhile isWS).reverse).head? = some y) :
    isWS y = false := by
  have hsplit : (l.dropWhile isWS).reverse.takeWhile isWS ++
      (l.dropWhile isWS).reverse.dropWhile isWS = (l.dropWhile isWS).reverse :=
    List.takeWhile_append_dropWhile isWS (l.dropWhile isWS).reverse
  have hm_eq : l.dropWhile isWS =
      ((l.dropWhile isWS).reverse.dropWhile isWS).reverse ++
        ((l.dropWhile isWS).reverse.takeWhile isWS).reverse := by
    have hrev := congrArg List.reverse hsplit
    rw [List.reverse_append, List.reverse_reverse] at hrev
    exact hrev.symm
  have hhead : (l.dropWhile isWS).head? = some y := by
    rw [hm_eq]
    cases hBr : ((l.dropWhile isWS).reverse.dropWhile isWS).reverse with
    | nil => rw [hBr] at h; simp at h
    | cons a t =>
      have : a = y := by rw [hBr] at h; simpa using h
      subst this
      simp
  exact head_false_of_dropWhile isWS l y hhead

theorem pyStrip_idem (s : String) : pyStrip (pyStrip s) = pyStrip s := by
  rcases s with ⟨l⟩
  rw [stripData_eq, stripData_eq]
  have h1 : (((l.dropWhile isWS).reverse.dropWhile isWS).reverse).dropWhile isWS =
      ((l.dropWhile isWS).reverse.dropWhile isWS).reverse := by
    cases hc : ((l.dropWhile isWS).reverse.dropWhile isWS).reverse with
    | nil => simp
    | cons y ys =>
      exact dropWhile_of_head_false isWS (y :: ys) y rfl
        (stripData_head_false l y (by rw [hc]; rfl))
  have h2 : ((l.dropWhile isWS).reverse.dropWhile isWS).dropWhile isWS =
      (l.dropWhile isWS).reverse.dropWhile isWS := by
    cases hc : (l.dropWhile isWS).reverse.dropWhile isWS with
    | nil => simp
    | cons y ys =>
      exact dropWhile_of_head_false isWS (y :: ys) y rfl
        (head_false_of_dropWhile isWS (l.dropWhile isWS).reverse y (by rw [hc]; rfl))
  rw [h1, List.reverse_reverse, h2]

/-! ### Turns: shape lemmas for the interactive machine -/

theorem turn_widgets_all_chatMsg (ts : List Turn) :
    ∀ w ∈ ts.flatMap Turn.widgets, w.isChatMsg = true := by
  intro w hw
  rcases List.mem_flatMap.mp hw with ⟨t, _, hwt⟩
  rcases t with ⟨u, a, mo, warn⟩
  rcases warn
  · simp [Turn.widgets] at hwt
    rcases hwt with h | h <;> simp [h, Widget.isChatMsg]
  · simp [Turn.widgets] at hwt
    rcases hwt with h | h | h <;> simp [h, Widget.isChatMsg]

theorem turn_msgs_roles (ts : List Turn) :
    ∀ x ∈ ts.flatMap Turn.msgs, x.role = "user" ∨ x.role = "assistant" := by
  intro x hx
  rcases List.mem_flatMap.mp hx with ⟨t, _, hxt⟩
  simp [Turn.msgs, Msg.user] at hxt
  rcases hxt with h | h <;> simp [h]

theorem countUserW_turn (t : Turn) : countUserW (Turn.widgets t) = 1 := by
  rcases t with ⟨u, a, mo, warn⟩
  rcases warn <;> simp [Turn.widgets, countUserW, List.countP_cons]

theorem countAiW_turn_ge (t : Turn) : 1 ≤ countAiW (Turn.widgets t) := by
  rcases t with ⟨u, a, mo, warn⟩
  rcases warn <;> simp [Turn.widgets, countAiW, List.countP_cons]

theorem countUserW_append (A B : List Widget) :
    countUserW (A ++ B) = countUserW A + countUserW B := by
  simp [countUserW, List.countP_append]

theorem countAiW_append (A B : List Widget) :
    countAiW (A ++ B) = countAiW A + countAiW B := by
  simp [countAiW, List.countP_append]

theorem countUserW_flatW (ts : List Turn) :
    countUserW (ts.flatMap Turn.widgets) = ts.length := by
  induction ts with
  | nil => rfl
  | cons t rest ih =>
    rw [List.flatMap_cons, countUserW_append, countUserW_turn, ih]
    simp only [List.length_cons]
    omega

theorem le_countAiW_flatW (ts : List Turn) :
    ts.length ≤ countAiW (ts.flatMap Turn.widgets) := by
  induction ts with
  | nil => simp
  | cons t rest ih =>
    rw [List.flatMap_cons, countAiW_append]
    have := countAiW_turn_ge t
    simp only [List.length_cons]
    omega

theorem countRole_user_flatMsgs (ts : List Turn) :
    countRole "user" (ts.flatMap Turn.msgs) = ts.length := by
  induction ts with
  | nil => rfl
  | cons t rest ih =>
    simp [List.flatMap_cons, countRole, List.countP_append, Turn.msgs, Msg.user,
      List.countP_cons] at ih ⊢
    omega

theorem countRole_assistant_flatMsgs (ts : List Turn) :
    countRole "assistant" (ts.flatMap Turn.msgs) = ts.length := by
  induction ts with
  | nil => rfl
  | cons t rest ih =>
    simp [List.flatMap_cons, countRole, List.countP_append, Turn.msgs, Msg.user,
      List.countP_cons] at ih ⊢
    omega

theorem flatMsgs_length (ts : List Turn) :
    (ts.flatMap Turn.msgs).length = 2 * ts.length := by
  induction ts with
  | nil => rfl
  | cons t rest ih =>
    simp [List.flatMap_cons, Turn.msgs] at ih ⊢
    omega

theorem flatMsgs_take (ts : List Turn) (k : Nat) :
    (ts.flatMap Turn.msgs).take (2 * k) = (ts.take k).flatMap Turn.msgs := by
  induction ts generalizing k with
  | nil => simp
  | cons t rest ih =>
    rcases k with _ | k
    · simp
    · have h2 : 2 * (k + 1) = ((Turn.msgs t).length + 2 * k) := by
        simp [Turn.msgs]
        omega
      rw [List.flatMap_cons, h2, List.take_append, ih, List.take_succ_cons,
        List.flatMap_cons]

theorem alternate_flatMsgs (ts : List Turn) :
    rolesAlternate (ts.flatMap Turn.msgs) = true := by
  unfold rolesAlternate
  induction ts with
  | nil => rfl
  | cons t rest ih =>
    rw [List.flatMap_cons]
    simp only [Turn.msgs, Msg.user, List.cons_append, List.nil_append, altFrom]
    simp [ih]

/-! ### One full send under well-formedness -/

theorem insertAt_penult {α : Type} (a : α) (A : List α) (z w : α) :
    insertAt ((a :: (A ++ [z])).length - 1) w (a :: (A ++ [z])) =
      a :: (A ++ [w, z]) := by
  have hn : (a :: (A ++ [z])).length - 1 = A.length + 1 := by simp
  rw [hn]
  simp [insertAt, List.take_succ_cons, List.drop_succ_cons,
    List.take_append_of_le_length (le_refl A.length),
    List.drop_append_of_le_length (le_refl A.length)]

theorem handle_chunk_first (s : TabState) (mids : List Widget) (c : String)
    (hlay : s.layout = Widget.suggestions :: (mids ++ [Widget.stretch]))
    (hidx : s.aiWidgetIdx = none) :
    handle_ai_message_chunk s c = { s with
      current_ai_message := s.current_ai_message ++ c,
      aiWidgetIdx := some (mids.length + 1),
      layout := Widget.suggestions ::
        (mids ++ [Widget.chatMsg false (s.current_ai_message ++ c), Widget.stretch]) } := by
  simp only [handle_ai_message_chunk, hidx]
  rw [hlay, insertAt_penult]
  have hlen : (Widget.suggestions :: (mids ++ [Widget.stretch])).length - 1 =
      mids.length + 1 := by simp
  rw [hlen]

theorem set_at_len {α : Type} (A : List α) (x : α) (B : List α) (y : α) :
    (A ++ x :: B).set A.length y = A ++ y :: B := by
  induction A with
  | nil => rfl
  | cons a t ih => simp [List.set_cons_succ, ih]

theorem set_penult {α : Type} (a : α) (A : List α) (x z y : α) :
    (a :: (A ++ [x, z])).set (A.length + 1) y = a :: (A ++ [y, z]) := by
  have h := set_at_len A x [z] y
  simp [List.set_cons_succ, h]

theorem handle_chunks_fold (cs : List String) (s : TabState) (mids : List Widget)
    (buf : String)
    (hbuf : s.current_ai_message = buf)
    (hlay : s.layout = Widget.suggestions ::
      (mids ++ [Widget.chatMsg false buf, Widget.stretch]))
    (hidx : s.aiWidgetIdx = some (mids.length + 1)) :
    processEvents s (cs.map WEvent.chunk) = { s with
      current_ai_message := buf ++ concatAll cs,
      layout := Widget.suggestions ::
        (mids ++ [Widget.chatMsg false (buf ++ concatAll cs), Widget.stretch]) } := by
  induction cs generalizing s buf with
  | nil =>
    have hc : buf ++ concatAll [] = buf := by
      simp [concatAll]
    simp only [List.map_nil, processEvents, List.foldl_nil, hc]
    rw [← hlay, ← hbuf]
  | cons c rest ih =>
    simp only [List.map_cons, processEvents, List.foldl_cons, processEvent]
    have hstep : handle_ai_message_chunk s c = { s with
        current_ai_message := buf ++ c,
        layout := Widget.suggestions ::
          (mids ++ [Widget.chatMsg false (buf ++ c), Widget.stretch]) } := by
      simp only [handle_ai_message_chunk, hidx]
      rw [hlay, set_penult, hbuf]
    have ihx := ih { s with
        current_ai_message := buf ++ c,
        layout := Widget.suggestions ::
          (mids ++ [Widget.chatMsg false (buf ++ c), Widget.stretch]) }
        (buf ++ c) rfl rfl hidx
    simp only [processEvents] at ihx
    rw [hstep, ihx]
    have hca : (buf ++ c) ++ concatAll rest = buf ++ concatAll (c :: rest) := by
      rw [concatAll_cons, String.append_assoc]
    rw [hca]

theorem send_pre_WF (s : TabState) (ts : List Turn) (text : String)
    (hWF : WF s ts) (ht : ¬ pyStrip text = "") :
    (send_message_pre s text).1 = { s with
      conversation_history := ts.flatMap Turn.msgs ++ [Msg.user (pyStrip text)],
      current_ai_message := "",
      chat_worker := some true,
      aiWidgetIdx := none,
      layout := Widget.suggestions :: (ts.flatMap Turn.widgets ++
        [Widget.chatMsg true (pyStrip text), Widget.stretch]) } := by
  obtain ⟨hhist, hlay, hworker, hts⟩ := hWF
  have hterm : terminate_worker s = s := by
    simp only [terminate_worker, hworker]
  have hnone : ¬ ((none : Option Bool) = some true) := by simp
  simp only [send_message_pre, hterm, hworker, if_neg ht, if_neg hnone]
  rw [hlay, insertAt_penult]
  ext <;> simp [hhist]

theorem handle_finished_nonempty (s : TabState) (mids : List Widget) (r : String)
    (hbuf : ¬ s.current_ai_message = "")
    (hlay : s.layout = Widget.suggestions :: (mids ++ [Widget.stretch])) :
    handle_chat_finished s r = { s with
      conversation_history := s.conversation_history ++
        [⟨"assistant", s.current_ai_message, s.current_model⟩],
      chat_worker := none,
      layout := Widget.suggestions :: (mids ++
        ((if r = "length" then [Widget.chatMsg false lengthWarnText] else []) ++
          [Widget.stretch])) } := by
  simp only [handle_chat_finished, if_neg hbuf]
  by_cases hr : r = "length"
  · simp only [hr, if_pos rfl]
    rw [show ({ s with conversation_history := s.conversation_history ++
        [⟨"assistant", s.current_ai_message, s.current_model⟩] } : TabState).layout =
      s.layout from rfl, hlay, insertAt_penult]
    simp
  · simp only [if_neg hr, List.nil_append]
    rw [← hlay]

theorem processRun (mids : List Widget) (s : TabState) (c : String)
    (cs' : List String) (r : String)
    (hlay : s.layout = Widget.suggestions :: (mids ++ [Widget.stretch]))
    (hidx : s.aiWidgetIdx = none)
    (hX : ¬ (s.current_ai_message ++ c) ++ concatAll cs' = "") :
    processEvents s (List.map WEvent.chunk (c :: cs') ++ [WEvent.finished r]) =
      { s with
        conversation_history := s.conversation_history ++
          [⟨"assistant", (s.current_ai_message ++ c) ++ concatAll cs',
            s.current_model⟩],
        current_ai_message := (s.current_ai_message ++ c) ++ concatAll cs',
        chat_worker := none,
        aiWidgetIdx := some (mids.length + 1),
        layout := Widget.suggestions :: ((mids ++
          [Widget.chatMsg false ((s.current_ai_message ++ c) ++ concatAll cs')]) ++
          ((if r = "length" then [Widget.chatMsg false lengthWarnText] else []) ++
            [Widget.stretch])) } := by
  have h1 : processEvent s (WEvent.chunk c) = { s with
      current_ai_message := s.current_ai_message ++ c,
      aiWidgetIdx := some (mids.length + 1),
      layout := Widget.suggestions ::
        (mids ++ [Widget.chatMsg false (s.current_ai_message ++ c), Widget.stretch]) } :=
    handle_chunk_first s mids c hlay hidx
  have h2 : processEvents { s with
      current_ai_message := s.current_ai_message ++ c,
      aiWidgetIdx := some (mids.length + 1),
      layout := Widget.suggestions ::
        (mids ++ [Widget.chatMsg false (s.current_ai_message ++ c), Widget.stretch]) }
      (cs'.map WEvent.chunk) = { s with
      current_ai_message := (s.current_ai_message ++ c) ++ concatAll cs',
      aiWidgetIdx := some (mids.length + 1),
      layout := Widget.suggestions ::
        (mids ++ [Widget.chatMsg false ((s.current_ai_message ++ c) ++ concatAll cs'),
          Widget.stretch]) } := by
    exact handle_chunks_fold cs' _ mids (s.current_ai_message ++ c) rfl rfl rfl
  have h3 : handle_chat_finished { s with
      current_ai_message := (s.current_ai_message ++ c) ++ concatAll cs',
      aiWidgetIdx := some (mids.length + 1),
      layout := Widget.suggestions ::
        (mids ++ [Widget.chatMsg false ((s.current_ai_message ++ c) ++ concatAll cs'),
          Widget.stretch]) } r = { s with
      conversation_history := s.conversation_history ++
        [⟨"assistant", (s.current_ai_message ++ c) ++ concatAll cs', s.current_model⟩],
      current_ai_message := (s.current_ai_message ++ c) ++ concatAll cs',
      chat_worker := none,
      aiWidgetIdx := some (mids.length + 1),
      layout := Widget.suggestions :: ((mids ++
        [Widget.chatMsg false ((s.current_ai_message ++ c) ++ concatAll cs')]) ++
        ((if r = "length" then [Widget.chatMsg false lengthWarnText] else []) ++
          [Widget.stretch])) } := by
    exact handle_finished_nonempty _ (mids ++
      [Widget.chatMsg false ((s.current_ai_message ++ c) ++ concatAll cs')]) r hX
      (by simp)
  simp only [processEvents, List.map_cons, List.foldl_append, List.foldl_cons,
    List.foldl_nil]
  rw [h1]
  have h2' := h2
  simp only [processEvents] at h2'
  rw [h2']
  exact h3

theorem sendOp_run (s : TabState) (ts : List Turn) (text : String)
    (cs : List String) (r : String) (hWF : WF s ts)
    (hne : ¬ concatAll cs = "") (ht : ¬ pyStrip text = "") :
    sendOp s text (cs.map WEvent.chunk ++ [WEvent.finished r]) = { s with
      conversation_history := ts.flatMap Turn.msgs ++
        [Msg.user (pyStrip text), ⟨"assistant", concatAll cs, s.current_model⟩],
      current_ai_message := concatAll cs,
      chat_worker := none,
      aiWidgetIdx := some ((ts.flatMap Turn.widgets).length + 1 + 1),
      layout := Widget.suggestions :: (ts.flatMap Turn.widgets ++
        (Widget.chatMsg true (pyStrip text) :: Widget.chatMsg false (concatAll cs) ::
          ((if r = "length" then [Widget.chatMsg false lengthWarnText] else []) ++
            [Widget.stretch]))) } := by
  rcases cs with _ | ⟨c, cs'⟩
  · exact absurd rfl hne
  · have hcc : ("" ++ c) ++ concatAll cs' = concatAll (c :: cs') := by
      rw [concatAll_cons, String.empty_append]
    simp only [sendOp, if_neg ht]
    rw [send_pre_WF s ts text hWF ht]
    have hrun := processRun
      (ts.flatMap Turn.widgets ++ [Widget.chatMsg true (pyStrip text)])
      { s with
        conversation_history := ts.flatMap Turn.msgs ++ [Msg.user (pyStrip text)],
        current_ai_message := "",
        chat_worker := some true,
        aiWidgetIdx := none,
        layout := Widget.suggestions :: (ts.flatMap Turn.widgets ++
          [Widget.chatMsg true (pyStrip text), Widget.stretch]) }
      c cs' r (by simp) rfl
      (by show ¬ ("" ++ c) ++ concatAll cs' = ""
          rw [hcc]
          exact hne)
    rw [hrun]
    ext <;> simp [concatAll_cons]

theorem sendOp_WF (s : TabState) (ts : List Turn) (text : String)
    (cs : List String) (r : String) (hWF : WF s ts)
    (hne : ¬ concatAll cs = "") (ht : ¬ pyStrip text = "") :
    WF (sendOp s text (cs.map WEvent.chunk ++ [WEvent.finished r]))
      (ts ++ [⟨pyStrip text, concatAll cs, s.current_model, r == "length"⟩]) := by
  rw [sendOp_run s ts text cs r hWF hne ht]
  refine ⟨?_, ?_, rfl, ?_⟩
  · simp [Turn.msgs, Msg.user]
  · show Widget.suggestions :: _ = Widget.suggestions :: _
    congr 1
    simp only [List.flatMap_append, List.flatMap_cons, List.flatMap_nil,
      List.append_nil, Turn.widgets]
    by_cases hr : r = "length" <;> simp [hr]
  · intro t htmem
    rcases List.mem_append.mp htmem with hmem | hmem
    · exact (hWF.2.2.2) t hmem
    · have : t = ⟨pyStrip text, concatAll cs, s.current_model, r == "length"⟩ := by
        simpa using hmem
      subst this
      exact ⟨pyStrip_idem text, ht⟩

theorem sendOp_empty (s : TabState) (ts : List Turn) (text : String)
    (run : List WEvent) (hWF : WF s ts) (ht : pyStrip text = "") :
    sendOp s text run = s := by
  have hworker := hWF.2.2.1
  simp [sendOp, send_message_pre, terminate_worker, hworker, ht]

theorem eraseIdx_at_len {α : Type} (A : List α) (x : α) (B : List α) :
    (A ++ x :: B).eraseIdx A.length = A ++ B := by
  induction A with
  | nil => rfl
  | cons a t ih => simp [List.eraseIdx_cons_succ, ih]

theorem user_widget_pos (ts : List Turn) (j : Nat) (c : String)
    (hj : (ts.flatMap Turn.widgets)[j]? = some (Widget.chatMsg true c)) :
    ∃ k t, ts[k]? = some t ∧ t.userText = c ∧
      j = ((ts.take k).flatMap Turn.widgets).length := by
  induction ts generalizing j with
  | nil => simp at hj
  | cons t rest ih =>
    rw [List.flatMap_cons] at hj
    by_cases hlt : j < (Turn.widgets t).length
    · rw [List.getElem?_append_left hlt] at hj
      rcases t with ⟨u, a, mo, warn⟩
      rcases warn
      · rcases j with _ | _ | j
        · refine ⟨0, ⟨u, a, mo, false⟩, by simp, ?_, by simp⟩
          simp [Turn.widgets] at hj
          exact hj
        · simp [Turn.widgets] at hj
        · simp [Turn.widgets] at hj
      · rcases j with _ | _ | _ | j
        · refine ⟨0, ⟨u, a, mo, true⟩, by simp, ?_, by simp⟩
          simp [Turn.widgets] at hj
          exact hj
        · simp [Turn.widgets] at hj
        · simp [Turn.widgets, lengthWarnText] at hj
        · simp [Turn.widgets] at hj
    · push_neg at hlt
      rw [List.getElem?_append_right hlt] at hj
      obtain ⟨k, t', hk, hc, hlen⟩ := ih (j - (Turn.widgets t).length) hj
      refine ⟨k + 1, t', by simpa using hk, hc, ?_⟩
      simp only [List.take_succ_cons, List.flatMap_cons, List.length_append]
      omega

theorem truncate_WF (s : TabState) (ts : List Turn) (k : Nat) (t : Turn)
    (hWF : WF s ts) (hk : ts[k]? = some t) :
    update_last_message_truncate s (((ts.take k).flatMap Turn.widgets).length + 1) =
      { s with
        layout := Widget.suggestions ::
          ((ts.take k).flatMap Turn.widgets ++ [Widget.stretch]),
        conversation_history := (ts.take k).flatMap Turn.msgs } := by
  obtain ⟨hhist, hlay, hworker, hts⟩ := hWF
  have hklen : k < ts.length := (List.getElem?_eq_some_iff.mp hk).choose
  have hktake : (ts.take k).length = k := by
    simp [List.length_take, Nat.min_eq_left (Nat.le_of_lt hklen)]
  have hdropk : ts.drop k = t :: ts.drop (k + 1) := by
    have h := List.drop_eq_getElem_cons hklen
    have : ts[k] = t := by
      have := List.getElem?_eq_some_iff.mp hk
      exact this.choose_spec
    rw [this] at h
    exact h
  have hsplit : ts.flatMap Turn.widgets =
      (ts.take k).flatMap Turn.widgets ++
        (Widget.chatMsg true t.userText :: (Widget.chatMsg false t.aiText ::
          (if t.warn then [Widget.chatMsg false lengthWarnText] else []) ++
            (ts.drop (k + 1)).flatMap Turn.widgets)) := by
    conv_lhs => rw [← List.take_append_drop k ts]
    rw [List.flatMap_append, hdropk, List.flatMap_cons]
    simp [Turn.widgets]
  have hWlen : ((ts.take k).flatMap Turn.widgets).length + 1 ≤
      (ts.flatMap Turn.widgets).length := by
    rw [hsplit]
    simp
  have htakeW : (ts.flatMap Turn.widgets).take
      (((ts.take k).flatMap Turn.widgets).length + 1) =
      (ts.take k).flatMap Turn.widgets ++ [Widget.chatMsg true t.userText] := by
    rw [hsplit, show ((ts.take k).flatMap Turn.widgets).length + 1 =
      ((ts.take k).flatMap Turn.widgets).length + 1 from rfl]
    rw [List.take_append 1]
    simp
  simp only [update_last_message_truncate]
  rw [hlay]
  rw [show (((ts.take k).flatMap Turn.widgets).length + 1) =
    (((ts.take k).flatMap Turn.widgets).length) + 1 from rfl]
  rw [remove_after_on_widgets (ts.flatMap Turn.widgets)
    ((ts.take k).flatMap Turn.widgets).length (turn_widgets_all_chatMsg ts) hWlen]
  rw [htakeW]
  have herase : (Widget.suggestions ::
      ((ts.take k).flatMap Turn.widgets ++ [Widget.chatMsg true t.userText] ++
        [Widget.stretch])).eraseIdx
      (((ts.take k).flatMap Turn.widgets).length + 1) =
      Widget.suggestions :: ((ts.take k).flatMap Turn.widgets ++ [Widget.stretch]) := by
    rw [List.eraseIdx_cons_succ, List.append_assoc, List.singleton_append]
    rw [eraseIdx_at_len]
  rw [herase]
  simp only [update_conversation_history_to_index]
  rw [countMessagesUpTo_spec]
  have htake2 : (Widget.suggestions ::
      ((ts.take k).flatMap Turn.widgets ++ [Widget.stretch])).take
      (((ts.take k).flatMap Turn.widgets).length + 1 - 1 + 1) =
      Widget.suggestions :: (ts.take k).flatMap Turn.widgets := by
    simp only [Nat.add_sub_cancel, List.take_succ_cons]
    simp
  rw [htake2]
  have hcountA : k ≤ countAiW
      (Widget.suggestions :: (ts.take k).flatMap Turn.widgets) := by
    have h1 : countAiW (Widget.suggestions :: (ts.take k).flatMap Turn.widgets) =
        countAiW ((ts.take k).flatMap Turn.widgets) := by
      simp [countAiW, List.countP_cons]
    rw [h1]
    have := le_countAiW_flatW (ts.take k)
    omega
  rw [hhist, trimLoop_eq_trimAux]
  simp only [Nat.sub_zero]
  have hcu2 : countUserW (Widget.suggestions :: (ts.take k).flatMap Turn.widgets) =
      countRole "user" ((ts.flatMap Turn.msgs).take (2 * k)) := by
    rw [flatMsgs_take, countRole_user_flatMsgs, hktake]
    have h1 : countUserW (Widget.suggestions :: (ts.take k).flatMap Turn.widgets) =
        countUserW ((ts.take k).flatMap Turn.widgets) := by
      simp [countUserW, List.countP_cons]
    rw [h1, countUserW_flatW, hktake]
  rw [hcu2]
  have hget2 : ∀ m, (ts.flatMap Turn.msgs)[2 * k]? = some m → m.role = "user" := by
    intro m hm
    have hsplit2 : ts.flatMap Turn.msgs =
        (ts.take k).flatMap Turn.msgs ++
          (Msg.user t.userText :: (⟨"assistant", t.aiText, t.model⟩ ::
            (ts.drop (k + 1)).flatMap Turn.msgs)) := by
      conv_lhs => rw [← List.take_append_drop k ts]
      rw [List.flatMap_append, hdropk, List.flatMap_cons]
      simp [Turn.msgs]
    rw [hsplit2, List.getElem?_append_right (by
      rw [flatMsgs_length, hktake])] at hm
    rw [flatMsgs_length, hktake] at hm
    simp at hm
    rw [← hm]
    rfl
  have htrim := trimAux_take (ts.flatMap Turn.msgs) (2 * k)
      (countAiW (Widget.suggestions :: (ts.take k).flatMap Turn.widgets))
      (fun x hx => turn_msgs_roles ts x (List.mem_of_mem_take hx))
      (by rw [flatMsgs_take, countRole_assistant_flatMsgs, hktake]; exact hcountA)
      hget2
  rw [htrim, flatMsgs_take]

theorem update_last_WF (s : TabState) (ts : List Turn) (widx : Nat) (text : String)
    (cs : List String) (r : String) (hWF : WF s ts)
    (htarget : isUserTarget s widx) (hne : ¬ concatAll cs = "")
    (hedit : text = "" ∨ ¬ pyStrip text = "") :
    ∃ ts', WF (update_last_message s widx text
      (cs.map WEvent.chunk ++ [WEvent.finished r])) ts' := by
  obtain ⟨c, hc⟩ := htarget
  rw [List.get?_eq_getElem?] at hc
  obtain ⟨hhist, hlay, hworker, hts⟩ := hWF
  rw [hlay] at hc
  rcases widx with _ | j
  · simp at hc
  · rw [List.getElem?_cons_succ] at hc
    by_cases hjlt : j < (ts.flatMap Turn.widgets).length
    · rw [List.getElem?_append_left hjlt] at hc
      obtain ⟨k, t, hk, huc, hjW⟩ := user_widget_pos ts j c hc
      have htmem : t ∈ ts := List.getElem?_mem hk
      have htu := hts t htmem
      have htrunc := truncate_WF s ts k t ⟨hhist, hlay, hworker, hts⟩ hk
      have hWFtake : WF ({ s with
          layout := Widget.suggestions ::
            ((ts.take k).flatMap Turn.widgets ++ [Widget.stretch]),
          conversation_history := (ts.take k).flatMap Turn.msgs }) (ts.take k) :=
        ⟨rfl, rfl, hworker, fun t' ht' => hts t' (List.mem_of_mem_take ht')⟩
      have hraw : (match s.layout.get? (j + 1) with
          | some (Widget.chatMsg _ c) => c
          | _ => "") = c := by
        rw [List.get?_eq_getElem?, hlay, List.getElem?_cons_succ,
          List.getElem?_append_left hjlt, hc]
      simp only [update_last_message, hraw]
      rw [hjW, htrunc]
      rcases hedit with hre | hed
      · subst hre
        have hcne : ¬ pyStrip c = "" := by
          rw [← huc, htu.1]
          exact htu.2
        rw [if_neg (show ¬ ("" : String) ≠ "" by simp)]
        exact ⟨ts.take k ++
          [⟨pyStrip c, concatAll cs, s.current_model, r == "length"⟩],
          sendOp_WF _ (ts.take k) c cs r hWFtake hne hcne⟩
      · have htne : text ≠ "" := by
          intro hx
          rw [hx] at hed
          exact hed rfl
        rw [if_pos htne]
        have hstrip2 : ¬ pyStrip (pyStrip text) = "" := by
          rw [pyStrip_idem]
          exact hed
        exact ⟨ts.take k ++ [⟨pyStrip (pyStrip text), concatAll cs,
          s.current_model, r == "length"⟩],
          sendOp_WF _ (ts.take k) (pyStrip text) cs r hWFtake hne hstrip2⟩
    · push_neg at hjlt
      rw [List.getElem?_append_right hjlt] at hc
      rcases hd : j - (ts.flatMap Turn.widgets).length with _ | d
      · rw [hd] at hc
        simp at hc
      · rw [hd] at hc
        simp at hc

theorem exec_WF (ops : List Op) (s : TabState) (hv : ValidOps s ops) :
    ∀ ts, WF s ts → ∃ ts', WF (execOps s ops) ts' := by
  induction hv with
  | nil s => exact fun ts hWF => ⟨ts, hWF⟩
  | send s text run ops hrun hv ih =>
    intro ts hWF
    rw [show execOps s (Op.send text run :: ops) =
      execOps (applyOp s (Op.send text run)) ops from rfl]
    by_cases ht : pyStrip text = ""
    · refine ih ts ?_
      rw [show applyOp s (Op.send text run) = sendOp s text run from rfl,
        sendOp_empty s ts text run hWF ht]
      exact hWF
    · obtain ⟨cs, r, hform, hcs⟩ := hrun
      refine ih (ts ++ [⟨pyStrip text, concatAll cs, s.current_model, r == "length"⟩]) ?_
      rw [show applyOp s (Op.send text run) = sendOp s text run from rfl, hform]
      exact sendOp_WF s ts text cs r hWF hcs ht
  | edit s widx text run ops hrun hed htarget hv ih =>
    intro ts hWF
    rw [show execOps s (Op.edit widx text run :: ops) =
      execOps (applyOp s (Op.edit widx text run)) ops from rfl]
    obtain ⟨cs, r, hform, hcs⟩ := hrun
    have happ : applyOp s (Op.edit widx text run) =
        update_last_message s widx text run := by
      simp [applyOp, hWF.2.2.1]
    obtain ⟨ts', hWF'⟩ := update_last_WF s ts widx text cs r hWF htarget hcs
      (Or.inr hed)
    refine ih ts' ?_
    rw [happ, hform]
    exact hWF'
  | resend s widx run ops hrun htarget hv ih =>
    intro ts hWF
    rw [show execOps s (Op.resend widx run :: ops) =
      execOps (applyOp s (Op.resend widx run)) ops from rfl]
    obtain ⟨cs, r, hform, hcs⟩ := hrun
    obtain ⟨ts', hWF'⟩ := update_last_WF s ts widx "" cs r hWF htarget hcs
      (Or.inl rfl)
    refine ih ts' ?_
    rw [show applyOp s (Op.resend widx run) = update_last_message s widx "" run
      from rfl, hform]
    exact hWF'

/-- Claim C7 (history alternation), amended with the hypothesis that every
session run completes without fault and with nonempty accumulated text:
starting from a fresh tab, after any finite sequence of send, edit and
resend operations whose runs are driven to terminal finished states with
nonempty text (and whose edit and resend targets are user message
widgets), the roles in the conversation history strictly alternate user,
assistant, user, assistant, ... from index 0. -/
theorem history_alternation (ops : List Op) (hv : ValidOps initialTab ops) :
    rolesAlternate (execOps initialTab ops).conversation_history = true := by
  have hWF0 : WF initialTab [] := by
    refine ⟨rfl, by simp [initialTab], rfl, by simp⟩
  obtain ⟨ts', hWF⟩ := exec_WF ops initialTab hv [] hWF0
  rw [hWF.1]
  exact alternate_flatMsgs ts'

theorem history_alternation_witness :
    rolesAlternate (execOps initialTab
      [Op.send "hi" [WEvent.chunk "ok", WEvent.finished "stop"]]).conversation_history
      = true :=
  history_alternation [Op.send "hi" [WEvent.chunk "ok", WEvent.finished "stop"]]
    (ValidOps.send initialTab "hi" [WEvent.chunk "ok", WEvent.finished "stop"] []
      ⟨["ok"], "stop", rfl, by decide⟩
      (ValidOps.nil _))

/-- Claim C7, counterexample to the claim as stated: two sends whose
session runs are driven to terminal states but accumulate no text (the
provider stream ends without content chunks) leave the history as two
consecutive user messages — no assistant message is appended for an empty
buffer — so the roles do not alternate. -/
theorem history_alternation_cex :
    rolesAlternate (execOps initialTab
      [Op.send "a" [WEvent.finished "stop"],
       Op.send "b" [WEvent.finished "stop"]]).conversation_history = false := by
  decide

end PyQtChat
